import Mathlib

/-!
Verification of the Atlas peer-to-peer zonefile replication engine
(`blockstack/atlas.py`) against its natural-language specification.

The Python source is shallowly embedded: byte strings become `List Nat`
(each element a byte value), SQLite tables become lists of row structures
kept in rowid order, the in-memory peer table becomes an association list,
and code that can raise (`max([])` on an empty list) returns `Option`.
-/

set_option autoImplicit false

/-- One row of the `zonefiles` table
(`inv_index INTEGER PRIMARY KEY AUTOINCREMENT, zonefile_hash, present,
tried_storage, block_height`). -/
structure AtlasRow where
  inv_index : Nat
  zonefile_hash : String
  present : Bool
  tried_storage : Bool
  block_height : Nat
deriving DecidableEq, Repr

/-- The durable catalog plus the process-wide cache:
`rows` is the `zonefiles` table in rowid order, `seq` the SQLite
AUTOINCREMENT counter (largest `inv_index` ever issued; never reused,
even after deletes), `inv` the in-RAM `ZONEFILE_INV` byte string. -/
structure AtlasState where
  rows : List AtlasRow
  seq : Nat
  inv : List Nat
deriving DecidableEq, Repr

/-- The freshly created database: no rows, no bitmap. -/
def atlasInit : AtlasState := ⟨[], 0, []⟩

/-- Python `zfbits | (1 << bit)` / `zfbits & ~(1 << bit)` on a Python int:
set or clear one bit of a byte (Python's `~` on unbounded non-negative
ints clears exactly the masked bit, which on `Nat` is the subtraction). -/
def flipByte (zfbits : Nat) (bit : Nat) (operation : Bool) : Nat :=
  if operation then zfbits ||| (1 <<< bit)
  else if zfbits.testBit bit then zfbits - (1 <<< bit) else zfbits

/-- Source `atlas_inventory_flip_zonefile_bits(inv_vec, bit_indexes, operation)`:
set (`operation = true`) or clear each listed bit, zero-expanding the
vector to `max(bit_indexes)/8 + 1` bytes first.  `max([])` raises
`ValueError` in Python, hence `none` on an empty index list. -/
def atlas_inventory_flip_zonefile_bits (inv_vec : List Nat) (bit_indexes : List Nat)
    (operation : Bool) : Option (List Nat) :=
  match bit_indexes.max? with
  | none => none
  | some mx =>
    let max_byte_index := mx / 8 + 1
    let inv_list :=
      if inv_vec.length ≤ max_byte_index then
        inv_vec ++ List.replicate (max_byte_index - inv_vec.length) 0
      else inv_vec
    some (bit_indexes.foldl (fun acc bi =>
      acc.set (bi / 8) (flipByte (acc.getD (bi / 8) 0) (7 - bi % 8) operation)) inv_list)

/-- Source `atlas_inventory_set_zonefile_bits`. -/
def atlas_inventory_set_zonefile_bits (inv_vec : List Nat) (bit_indexes : List Nat) :
    Option (List Nat) :=
  atlas_inventory_flip_zonefile_bits inv_vec bit_indexes true

/-- Source `atlas_inventory_clear_zonefile_bits`. -/
def atlas_inventory_clear_zonefile_bits (inv_vec : List Nat) (bit_indexes : List Nat) :
    Option (List Nat) :=
  atlas_inventory_flip_zonefile_bits inv_vec bit_indexes false

/-- Source `atlas_inventory_test_zonefile_bits(inv_vec, bit_indexes)`:
true iff every listed bit is set (bit `i` is bit `7 - i % 8` of byte
`i / 8`), reading the vector zero-expanded as in the flip operation.
`max([])` raises on an empty index list, hence `none`. -/
def atlas_inventory_test_zonefile_bits (inv_vec : List Nat) (bit_indexes : List Nat) :
    Option Bool :=
  match bit_indexes.max? with
  | none => none
  | some mx =>
    let max_byte_index := mx / 8 + 1
    let inv_list :=
      if inv_vec.length ≤ max_byte_index then
        inv_vec ++ List.replicate (max_byte_index - inv_vec.length) 0
      else inv_vec
    some (bit_indexes.foldl (fun ret bi =>
      ret && (inv_list.getD (bi / 8) 0).testBit (7 - bi % 8)) true)

/-- Source `atlasdb_get_zonefile_bits(zonefile_hash)`: the zero-based bit indexes
(`inv_index - 1`) of every row carrying the hash, in rowid order. -/
def atlasdb_get_zonefile_bits (rows : List AtlasRow) (zonefile_hash : String) : List Nat :=
  (rows.filter (fun r => r.zonefile_hash == zonefile_hash)).map (fun r => r.inv_index - 1)

/-- Source `atlasdb_add_zonefile_info(zonefile_hash, present, block_height)`:
insert a row (AUTOINCREMENT assigns `seq + 1`), then flip every bit of
the hash in the cached bitmap to the new row's `present` flag. -/
def atlasdb_add_zonefile_info (zonefile_hash : String) (present : Bool)
    (block_height : Nat) (s : AtlasState) : Option AtlasState :=
  let idx := s.seq + 1
  let rows := s.rows ++ [⟨idx, zonefile_hash, present, false, block_height⟩]
  match atlas_inventory_flip_zonefile_bits s.inv (atlasdb_get_zonefile_bits rows zonefile_hash) present with
  | none => none
  | some inv => some ⟨rows, idx, inv⟩

/-- Source `atlasdb_set_zonefile_present(zonefile_hash, present)`:
`UPDATE zonefiles SET present = ? WHERE zonefile_hash = ?`, then read the
prior state from the cached bitmap (`was_present`, all bits of the hash)
and flip those bits to the new value.  Returns `(was_present, state)`. -/
def atlasdb_set_zonefile_present (zonefile_hash : String) (present : Bool)
    (s : AtlasState) : Option (Bool × AtlasState) :=
  let rows := s.rows.map (fun r =>
    if r.zonefile_hash == zonefile_hash then { r with present := present } else r)
  let zfbits := atlasdb_get_zonefile_bits rows zonefile_hash
  match atlas_inventory_test_zonefile_bits s.inv zfbits with
  | none => none
  | some was_present =>
    match atlas_inventory_flip_zonefile_bits s.inv zfbits present with
    | none => none
    | some inv => some (was_present, ⟨rows, s.seq, inv⟩)

/-- Source `atlasdb_zonefile_block_reset(drop_block)`:
`DELETE FROM zonefiles WHERE block_height = ?` (the AUTOINCREMENT counter
keeps its value). -/
def atlasdb_zonefile_block_reset (drop_block : Nat) (s : AtlasState) : AtlasState :=
  { s with rows := s.rows.filter (fun r => !(r.block_height == drop_block)) }

/-- Source `atlasdb_zonefile_inv_length()`: `SELECT MAX(inv_index)`; the function
returns 0 for an empty table and `MAX(inv_index) + 1` otherwise. -/
def atlasdb_zonefile_inv_length (s : AtlasState) : Nat :=
  match (s.rows.map (fun r => r.inv_index)).max? with
  | none => 0
  | some mx => mx + 1

/-- Source `atlasdb_zonefile_inv_list(bit_offset, bit_length)`:
`SELECT * FROM zonefiles LIMIT bit_length OFFSET bit_offset` — rows by
rowid position, not by `inv_index` value. -/
def atlasdb_zonefile_inv_list (bit_offset bit_length : Nat) (s : AtlasState) :
    List AtlasRow :=
  (s.rows.drop bit_offset).take bit_length

/-- Pack successive groups of 8 bits MSB-first into bytes
(`(b0 << 7) | ... | b7` per group); the caller pads the bit list to a
multiple of 8 first, so an incomplete trailing group never occurs. -/
def pack8 : List Bool → List Nat
  | b0 :: b1 :: b2 :: b3 :: b4 :: b5 :: b6 :: b7 :: rest =>
    (((if b0 then 1 else 0) <<< 7) ||| ((if b1 then 1 else 0) <<< 6) |||
     ((if b2 then 1 else 0) <<< 5) ||| ((if b3 then 1 else 0) <<< 4) |||
     ((if b4 then 1 else 0) <<< 3) ||| ((if b5 then 1 else 0) <<< 2) |||
     ((if b6 then 1 else 0) <<< 1) ||| (if b7 then 1 else 0)) :: pack8 rest
  | _ => []

/-- Source `atlas_make_zonefile_inventory(bit_offset, bit_length)`:
list the rows at table positions `[bit_offset, bit_offset + bit_length)`,
take their `present` flags in order, zero-pad to a byte boundary, and
pack MSB-first. -/
def atlas_make_zonefile_inventory (bit_offset bit_length : Nat) (s : AtlasState) :
    List Nat :=
  let bool_vec := (atlasdb_zonefile_inv_list bit_offset bit_length s).map (fun r => r.present)
  let padded :=
    if bool_vec.length % 8 ≠ 0 then
      bool_vec ++ List.replicate (8 - bool_vec.length % 8) false
    else bool_vec
  pack8 padded

/-- Source `atlasdb_cache_zonefile_info()`: rebuild the cached bitmap from the
table via `atlas_make_zonefile_inventory(0, atlasdb_zonefile_inv_length())`. -/
def atlasdb_cache_zonefile_info (s : AtlasState) : AtlasState :=
  { s with inv := atlas_make_zonefile_inventory 0 (atlasdb_zonefile_inv_length s) s }

/-- One in-memory peer table entry: `time` is the health history of
`(timestamp, responded)` pairs, `zonefile_inv` the mirrored remote
inventory byte string. -/
structure AtlasPeer where
  time : List (Nat × Bool)
  zonefile_inv : List Nat
  blacklisted : Bool
  whitelisted : Bool
deriving DecidableEq, Repr

/-- The global `PEER_TABLE`: a dict keyed by hostport, modelled as an
association list (first binding wins on lookup, as with unique dict keys). -/
abbrev PeerTable : Type := List (String × AtlasPeer)

/-- Dict lookup `peer_table.get(peer_hostport)`. -/
def ptLookup (peer_table : PeerTable) (peer_hostport : String) : Option AtlasPeer :=
  (List.find? (fun pe => pe.1 == peer_hostport) peer_table).map (fun pe => pe.2)

/-- Constant `MIN_PEER_HEALTH = 0.5`. -/
def MIN_PEER_HEALTH : ℚ := 1 / 2

/-- Constant `PEER_LIFETIME_INTERVAL` via `atlas_peer_lifetime_interval()` (3600 s). -/
def atlas_peer_lifetime_interval : Nat := 3600

/-- Constant `MAX_QUEUED_ZONEFILES = 1000`. -/
def MAX_QUEUED_ZONEFILES : Nat := 1000

/-- Source `atlas_peer_get_health(peer_hostport)`: responses / requests over the
entry's history; 0.0 when the peer is unknown or has no requests. -/
def atlas_peer_get_health (peer_table : PeerTable) (peer_hostport : String) : ℚ :=
  match ptLookup peer_table peer_hostport with
  | none => 0
  | some e =>
    if e.time.length > 0 then
      ((e.time.filter (fun tr => tr.2)).length : ℚ) / (e.time.length : ℚ)
    else 0

/-- Source `atlas_peer_get_request_count(peer_hostport)`: despite its name, the
source counts only history entries whose `responded` flag is set. -/
def atlas_peer_get_request_count (peer_table : PeerTable) (peer_hostport : String) : Nat :=
  match ptLookup peer_table peer_hostport with
  | none => 0
  | some e => (e.time.filter (fun tr => tr.2)).length

/-- Source `atlas_get_live_neighbors(remote_peer_hostport)` with the default
`min_health = MIN_PEER_HEALTH` and `min_request_count = 1`: iterate the
peer table keys, skipping the excluded hostport, peers with fewer than
one counted request, and peers below the health floor.  The source then
shuffles the survivors; since the claim is about which peers are in the
list, the shuffle (a permutation) is modelled as the identity. -/
def atlas_get_live_neighbors (remote_peer_hostport : String) (peer_table : PeerTable) :
    List String :=
  (peer_table.map (fun pe => pe.1)).filter (fun peer_hostport =>
    if peer_hostport = remote_peer_hostport then false
    else if atlas_peer_get_request_count peer_table peer_hostport < 1 then false
    else if atlas_peer_get_health peer_table peer_hostport < MIN_PEER_HEALTH then false
    else true)

/-- Source `atlas_peer_update_health(peer_hostport, received_response)`:
if the peer is unknown, return `False` and leave the table alone;
otherwise drop history entries with `t + PEER_LIFETIME < now` and append
`(now, received_response)`. -/
def atlas_peer_update_health (peer_hostport : String) (received_response : Bool)
    (now : Nat) (peer_table : PeerTable) : Bool × PeerTable :=
  match ptLookup peer_table peer_hostport with
  | none => (false, peer_table)
  | some _ =>
    (true, peer_table.map (fun pe =>
      if pe.1 = peer_hostport then
        let new_times :=
          pe.2.time.filter (fun tr => !decide (tr.1 + atlas_peer_lifetime_interval < now))
            ++ [(now, received_response)]
        (pe.1, { pe.2 with time := new_times })
      else pe))

/-- Source `atlas_peer_ping(peer_hostport)`: the network outcome (`alive`) is an
oracle parameter; health is recorded only when the peer is in the table. -/
def atlas_peer_ping (peer_hostport : String) (alive : Bool) (now : Nat)
    (peer_table : PeerTable) : Bool × PeerTable :=
  (alive,
    if (ptLookup peer_table peer_hostport).isSome then
      (atlas_peer_update_health peer_hostport alive now peer_table).2
    else peer_table)

/-- Source `atlas_zonefile_find_push_peers(zonefile_hash)` with the bit indexes
already resolved (the callers below always resolve and check them first):
the source appends every peer whose mirrored inventory passes
`atlas_inventory_test_zonefile_bits` — although its docstring promises
"the set of peers that do *not* have this zonefile". -/
def atlas_zonefile_find_push_peers (zonefile_bits : List Nat) (peer_table : PeerTable) :
    List String :=
  (peer_table.filter (fun pe =>
    atlas_inventory_test_zonefile_bits pe.2.zonefile_inv zonefile_bits == some true)).map
    (fun pe => pe.1)

/-- Source `AtlasZonefilePusher.step`, the peer-selection part: after dequeueing
`(zonefile_hash, body)`, resolve the bits; if there are none, stop;
otherwise `put_zonefiles` is sent to every member of
`atlas_zonefile_find_push_peers`. -/
def pusher_step_push_targets (zonefile_bits : List Nat) (peer_table : PeerTable) :
    List String :=
  if zonefile_bits.isEmpty then []
  else atlas_zonefile_find_push_peers zonefile_bits peer_table

/-- Source `atlas_zonefile_push_enqueue(zonefile_hash, zonefile_data)` with the
bits already resolved: bare `return` (i.e. `None`) when the hash has no
rows; otherwise enqueue iff `find_push_peers` is non-empty and the queue
is below `MAX_QUEUED_ZONEFILES`.  Returns the source's result value and
the new queue. -/
def atlas_zonefile_push_enqueue (zonefile_hash zonefile_data : String)
    (zonefile_bits : List Nat) (peer_table : PeerTable)
    (zonefile_queue : List (String × String)) :
    Option Bool × List (String × String) :=
  if zonefile_bits.isEmpty then (none, zonefile_queue)
  else
    let push_peers := atlas_zonefile_find_push_peers zonefile_bits peer_table
    if push_peers.length > 0 then
      if zonefile_queue.length < MAX_QUEUED_ZONEFILES then
        (some true, zonefile_queue ++ [(zonefile_hash, zonefile_data)])
      else (some false, zonefile_queue)
    else (some false, zonefile_queue)

/-- A decoded `get_zonefile_inventory` RPC outcome as seen by
`atlas_peer_get_zonefile_inventory_range`: a socket-level failure, an
`{error: ...}` reply, or a well-formed `{status: True, inv: ...}` reply
whose base64 payload decoded to the given bytes. -/
inductive InvRangeResponse where
  | fail : InvRangeResponse
  | err : String → InvRangeResponse
  | ok : List Nat → InvRangeResponse
deriving DecidableEq, Repr

/-- Source `atlas_peer_get_zonefile_inventory_range(..., bit_offset, bit_count)`:
returns `(returned slice, responded-flag recorded in the health history)`.
On a `{status: True}` reply the sanity assertion
`len(inv) <= bit_count/8 + bit_count%8` sits inside a `try` whose
`except Exception` handler only logs; control then falls through to
`atlas_peer_update_health(..., zf_inv['status'])` and `return zf_inv['inv']`,
so an overlong slice is returned, and counted as a response, exactly like
a conforming one — only the two branches' log output differs. -/
def atlas_peer_get_zonefile_inventory_range (bit_count : Nat)
    (resp : InvRangeResponse) : Option (List Nat) × Bool :=
  match resp with
  | .fail => (none, false)
  | .err _ => (none, false)
  | .ok inv =>
    if inv.length ≤ bit_count / 8 + bit_count % 8 then (some inv, true)
    else (some inv, true)

/-- The body of `atlas_peer_download_zonefile_inventory`'s window loop:
walk the precomputed `xrange` offsets, stopping on a failed window or on
`len(next_inv) < interval` — a byte count compared against the 524288-**bit**
window size — and accumulate `peer_inv += next_inv`.  The remote side is an
oracle mapping a bit offset to the (already decoded) slice it returns. -/
def download_windows (responder : Nat → Option (List Nat)) :
    List Nat → List Nat → List Nat
  | [], peer_inv => peer_inv
  | offset :: rest, peer_inv =>
    match responder offset with
    | none => peer_inv
    | some next_inv =>
      if next_inv.length < 524288 then peer_inv ++ next_inv
      else download_windows responder rest (peer_inv ++ next_inv)

/-- Source `atlas_peer_download_zonefile_inventory(..., maxlen, bit_offset)`:
return `""` at once when `bit_offset > maxlen`, else run the window loop
over `xrange(bit_offset, maxlen, 524288)`. -/
def atlas_peer_download_zonefile_inventory (responder : Nat → Option (List Nat))
    (maxlen bit_offset : Nat) : List Nat :=
  if bit_offset > maxlen then []
  else download_windows responder
    (List.range' bit_offset ((maxlen - bit_offset + 524287) / 524288) 524288) []

/-- Source `AtlasZonefileCrawler.step`, the ordering part: build
`zonefile_ranking = [(popularity, zfhash) ...]`, sort it ascending
(Python's stable tuple sort; modelled by insertion on the strict
lexicographic order — the inputs used below have distinct popularity
keys), and then flatten through `list(set(...))`.  CPython's set
iteration order is a property of the hash table, not of the insertion
order, so it is an oracle `pySet` here. -/
def insertPair (x : Nat × String) : List (Nat × String) → List (Nat × String)
  | [] => [x]
  | y :: ys =>
    if x.1 < y.1 ∨ (x.1 = y.1 ∧ x.2 < y.2) then x :: y :: ys else y :: insertPair x ys

/-- Python's ascending stable sort of `(popularity, zfhash)` tuples. -/
def sortPairs (l : List (Nat × String)) : List (Nat × String) :=
  l.foldr insertPair []

/-- Source `zonefile_ranking` from `AtlasZonefileCrawler.step`:
`[(missing_zfinfo[zfhash]['popularity'], zfhash) for zfhash ...].sort()`. -/
def zonefile_ranking (missing : List (String × Nat)) : List (Nat × String) :=
  sortPairs (missing.map (fun zp => (zp.2, zp.1)))

/-- Source `zonefile_hashes = list(set([zfhash for (_, zfhash) in zonefile_ranking]))`
— the order in which the step then attempts the hashes. -/
def crawler_zonefile_hashes (pySet : List String → List String)
    (missing : List (String × Nat)) : List String :=
  pySet ((zonefile_ranking missing).map (fun p => p.2))

/-- Hash `a` is attempted strictly before `b` in the list `l`. -/
def attemptedBefore (l : List String) (a b : String) : Prop :=
  l.indexOf a < l.indexOf b

instance (l : List String) (a b : String) : Decidable (attemptedBefore l a b) := by
  unfold attemptedBefore
  infer_instance

/-- The catalog states of the C1 scenario: two zonefiles anchored at
block 100 and stored, then `atlasdb_zonefile_block_reset(100)` (as
`atlasdb_init` performs on the boundary block), then one zonefile
re-inserted at block 100 — AUTOINCREMENT hands it `inv_index = 3`,
leaving a gap — and finally the cached bitmap rebuilt by
`atlasdb_cache_zonefile_info`. -/
def c1Chain : Option AtlasState :=
  (atlasdb_add_zonefile_info "a" true 100 atlasInit).bind (fun s1 =>
    (atlasdb_add_zonefile_info "b" true 100 s1).bind (fun s2 =>
      (atlasdb_add_zonefile_info "c" true 100
        (atlasdb_zonefile_block_reset 100 s2)).map atlasdb_cache_zonefile_info))

/-- A peer table in which `hasit` mirrors an inventory with bit 0 set
(it has the zonefile at `inv_index` 1) and `lacksit` mirrors an empty
inventory (it lacks it). -/
def c2Table : PeerTable :=
  [("hasit", ⟨[], [128], false, false⟩), ("lacksit", ⟨[], [], false, false⟩)]

/-- A peer table in which both peers already mirror the zonefile. -/
def c2TableAllHave : PeerTable :=
  [("hasit", ⟨[], [128], false, false⟩), ("alsohas", ⟨[], [128], false, false⟩)]

/-- Input `missing_zfinfo` with zonefile `a` known by 1 peer, `b` by 2. -/
def c3missing1 : List (String × Nat) := [("a", 1), ("b", 2)]

/-- The same two zonefiles with the popularities swapped. -/
def c3missing2 : List (String × Nat) := [("a", 2), ("b", 1)]

/-- A peer table with one blacklisted peer that has a perfect one-entry
history (health 1, counted request 1). -/
def c6Table : PeerTable := [("pb", ⟨[(5, true)], [], true, false⟩)]

/-- The selection the spec describes, for comparison: identical to
`atlas_get_live_neighbors` except that it also skips blacklisted peers. -/
def atlas_get_live_neighbors_claim (remote_peer_hostport : String)
    (peer_table : PeerTable) : List String :=
  (peer_table.map (fun pe => pe.1)).filter (fun peer_hostport =>
    if peer_hostport = remote_peer_hostport then false
    else if ((ptLookup peer_table peer_hostport).map (fun e => e.blacklisted)).getD false
      then false
    else if atlas_peer_get_request_count peer_table peer_hostport < 1 then false
    else if atlas_peer_get_health peer_table peer_hostport < MIN_PEER_HEALTH then false
    else true)

/-- A peer table whose single entry has one history pair recorded at
time 0. -/
def c9Table : PeerTable := [("pk", ⟨[(0, true)], [], false, false⟩)]

/-- The per-entry transformation `atlas_peer_update_health` applies to
the looked-up peer (its `new_times` computation). -/
def healthAppend (now : Nat) (received_response : Bool) (e : AtlasPeer) : AtlasPeer :=
  { e with time :=
      e.time.filter (fun tr => !decide (tr.1 + atlas_peer_lifetime_interval < now))
        ++ [(now, received_response)] }

/-- Bit `k` of an inventory byte string, read with zero extension —
byte `k / 8`, bit `7 - k % 8`, exactly the addressing the flip and test
primitives use. -/
def invTestBit (inv_vec : List Nat) (k : Nat) : Bool :=
  (inv_vec.getD (k / 8) 0).testBit (7 - k % 8)

/-- The catalog after inserting one stored zonefile:
one row at `inv_index` 1, cached bitmap `0x80`. -/
def c4State : AtlasState := ⟨[⟨1, "a", true, false, 100⟩], 1, [128]⟩

/-- Insert hash `a` as present at block 100, then a second, absent
anchor of the same hash at block 101 — the second insert flips *both*
of the hash's cached bits to the new row's flag, while the first row
keeps `present = 1` in the table. -/
def c5Chain : Option AtlasState :=
  (atlasdb_add_zonefile_info "a" true 100 atlasInit).bind
    (atlasdb_add_zonefile_info "a" false 101)


/-- Claim C1: the bitmap–catalog consistency invariant
(`test(local_inv, get_bits(hash))` true iff some row of the hash is
present) is violated in a state reachable by ledger insert, block reset,
re-insertion, and the `make_inventory` rebuild: zonefile `c` sits alone
in the table with `present = true` (so the right-hand side holds), yet
the rebuilt bitmap placed its flag at bit 0 while `get_bits` answers
bit 2, so the test comes back `false`. -/
theorem c1_bitmap_catalog_inconsistent_after_block_reset :
    c1Chain.map (fun s =>
      (atlas_inventory_test_zonefile_bits s.inv (atlasdb_get_zonefile_bits s.rows "c"),
       s.rows.any (fun r => r.zonefile_hash == "c" && r.present),
       atlasdb_get_zonefile_bits s.rows "c",
       s.inv)) = some (some false, true, [2], [128]) := by
  decide



/-- Claim C2: push-peer selection is inverted.  For the zonefile at bit 0,
the pusher's target list is exactly `["hasit"]` — the peer whose mirrored
inventory passes the bit test — while `lacksit`, the peer the claim says
should be the sole recipient of `put_zonefiles`, is never contacted; and
push-enqueueing a zonefile that every known peer already has is not a
noop: the push queue grows by the entry. -/
theorem c2_push_peer_selection_inverted :
    pusher_step_push_targets [0] c2Table = ["hasit"] ∧
    (ptLookup c2Table "hasit").map
      (fun e => atlas_inventory_test_zonefile_bits e.zonefile_inv [0]) =
        some (some true) ∧
    (ptLookup c2Table "lacksit").map
      (fun e => atlas_inventory_test_zonefile_bits e.zonefile_inv [0]) =
        some (some false) ∧
    atlas_zonefile_push_enqueue "zf" "body" [0] c2TableAllHave [] =
      (some true, [("zf", "body")]) := by
  decide

/-- One step of the window loop that receives a full window and a short
byte-vs-bit comparison: `len(next_inv) < interval` with `next_inv` in
bytes and `interval` in bits stops the loop. -/
theorem download_windows_cons (responder : Nat → Option (List Nat))
    (offset : Nat) (rest : List Nat) (acc l : List Nat)
    (h1 : responder offset = some l) (h2 : l.length < 524288) :
    download_windows responder (offset :: rest) acc = acc ++ l := by
  simp [download_windows, h1, h2]

/-- Claim C7: the download loop never continues past its first window.
With a local inventory of 1,048,576 bits there are two windows to fetch,
and the remote peer answers every request with a complete
65,536-byte = 524,288-bit slice — a response that is not short and did
not fail — yet the loop stops after the first window because
`len(next_inv) < interval` compares the slice's byte count against the
window's bit count.  The claim's loop would return both windows
(131,072 bytes). -/
theorem c7_download_stops_after_one_full_window :
    atlas_peer_download_zonefile_inventory
        (fun _ => some (List.replicate 65536 255)) 1048576 0 =
      List.replicate 65536 255 ∧
    8 * 65536 = 524288 ∧
    (1048576 - 0 + 524287) / 524288 = 2 := by
  refine ⟨?_, by norm_num, by norm_num⟩
  unfold atlas_peer_download_zonefile_inventory
  rw [if_neg (by norm_num)]
  rw [show (1048576 - 0 + 524287) / 524288 = 2 by norm_num]
  rw [show List.range' 0 2 524288 = [0, 524288] from rfl]
  rw [download_windows_cons _ 0 [524288] [] (List.replicate 65536 255) rfl
    (by rw [List.length_replicate]; norm_num)]
  exact List.nil_append _

/-- Claim C8: an overlong inventory slice is returned, not rejected.
For `get_inventory(off, 16)` the schema bound is `⌈16/8⌉ = 2` bytes, but
when the peer replies `{status: True}` with a 3-byte slice the client
returns the slice and records a *response* in the health history — the
length assertion's failure is swallowed by the `except` handler and
execution falls through to the success path. -/
theorem c8_overlong_inventory_slice_returned :
    atlas_peer_get_zonefile_inventory_range 16 (.ok [1, 2, 3]) = (some [1, 2, 3], true) ∧
    (16 + 7) / 8 = 2 ∧ 2 < 3 := by
  decide

/-- The presence update rewrites only the `present` column, so the bit
indexes of a hash are unchanged by it. -/
theorem atlasdb_get_zonefile_bits_map_present (rows : List AtlasRow)
    (zonefile_hash : String) (present : Bool) :
    atlasdb_get_zonefile_bits
      (rows.map (fun r =>
        if r.zonefile_hash == zonefile_hash then { r with present := present } else r))
      zonefile_hash = atlasdb_get_zonefile_bits rows zonefile_hash := by
  induction rows with
  | nil => rfl
  | cons r rs ih =>
    by_cases hr : r.zonefile_hash = zonefile_hash
    · simp only [atlasdb_get_zonefile_bits] at ih ⊢
      simp [List.filter_cons, hr]
      simpa using ih
    · simp only [atlasdb_get_zonefile_bits] at ih ⊢
      simp [List.filter_cons, hr]
      simpa using ih

/-- Claim C10: the bitmap primitives are partial in the bit-index list —
`max([])` raises `ValueError`, so `flip`/`test` fail on an empty list
(they return `none` rather than the vector unchanged or a vacuous
`true`), and `set_present` on a hash with no rows fails the same way. -/
theorem c10_empty_bit_indexes_raise (inv_vec : List Nat) (operation : Bool)
    (s : AtlasState) (zonefile_hash : String) (present : Bool) :
    atlas_inventory_flip_zonefile_bits inv_vec [] operation = none ∧
    atlas_inventory_test_zonefile_bits inv_vec [] = none ∧
    (atlasdb_get_zonefile_bits s.rows zonefile_hash = [] →
      atlasdb_set_zonefile_present zonefile_hash present s = none) := by
  refine ⟨rfl, rfl, fun hempty => ?_⟩
  simp only [atlasdb_set_zonefile_present,
    atlasdb_get_zonefile_bits_map_present, hempty]
  rfl

/-- Witness for C10 at a concrete input. -/
theorem c10_empty_bit_indexes_raise_witness :
    atlas_inventory_flip_zonefile_bits [] [] true = none ∧
    atlas_inventory_test_zonefile_bits [] [] = none ∧
    atlasdb_set_zonefile_present "a" true atlasInit = none := by
  refine ⟨(c10_empty_bit_indexes_raise [] true atlasInit "a" true).1,
    (c10_empty_bit_indexes_raise [] true atlasInit "a" true).2.1,
    (c10_empty_bit_indexes_raise [] true atlasInit "a" true).2.2 rfl⟩



/-- Claim C3: the step does not attempt missing hashes in ascending
popularity.  `zonefile_hashes = list(set(...))` rebuilds the list from a
set, whose iteration order is a function of the element hashes alone —
insensitive to the sorted insertion order (`pySet ["a", "b"] = pySet
["b", "a"]`, which holds of CPython's string sets whenever the two slots
differ).  Under that sole assumption, rarest-first ordering cannot hold
on both of two concrete inputs that share the hash set but swap the
popularities: the first demands `a` before `b`, the second `b` before
`a`, in the same list. -/
theorem c3_fetch_order_not_rarest_first (pySet : List String → List String)
    (hset : pySet ["a", "b"] = pySet ["b", "a"]) :
    ¬ (attemptedBefore (crawler_zonefile_hashes pySet c3missing1) "a" "b" ∧
       attemptedBefore (crawler_zonefile_hashes pySet c3missing2) "b" "a") := by
  intro hc
  have e1 : crawler_zonefile_hashes pySet c3missing1 = pySet ["a", "b"] := rfl
  have e2 : crawler_zonefile_hashes pySet c3missing2 = pySet ["b", "a"] := rfl
  have h1 := hc.1
  have h2 := hc.2
  rw [e1, hset] at h1
  rw [e2] at h2
  exact absurd h2 (Nat.lt_asymm h1)

/-- Witness for C3 with a concrete insertion-order-insensitive set model. -/
theorem c3_fetch_order_not_rarest_first_witness :
    ¬ (attemptedBefore (crawler_zonefile_hashes (fun _ => ["a", "b"]) c3missing1) "a" "b" ∧
       attemptedBefore (crawler_zonefile_hashes (fun _ => ["a", "b"]) c3missing2) "b" "a") :=
  c3_fetch_order_not_rarest_first (fun _ => ["a", "b"]) rfl



/-- Counterexample to claim C6 as stated: the blacklisted peer `pb` is
returned by `atlas_get_live_neighbors`, though the claimed selection
excludes it. -/
theorem c6_live_neighbors_counterexample :
    "pb" ∈ atlas_get_live_neighbors "x" c6Table ∧
    "pb" ∉ atlas_get_live_neighbors_claim "x" c6Table ∧
    (ptLookup c6Table "pb").map (fun e => e.blacklisted) = some true := by
  have hkeys : c6Table.map (fun pe => pe.1) = ["pb"] := rfl
  have hhealth : atlas_peer_get_health c6Table "pb" = 1 := by
    show (if (0 : Nat) < 1 then ((1 : Nat) : ℚ) / ((1 : Nat) : ℚ) else 0) = 1
    norm_num
  have hcount : atlas_peer_get_request_count c6Table "pb" = 1 := rfl
  have hbl : ((ptLookup c6Table "pb").map (fun e => e.blacklisted)).getD false = true := rfl
  refine ⟨?_, ?_, rfl⟩
  · unfold atlas_get_live_neighbors
    rw [hkeys, List.filter_cons]
    simp only [hcount, hhealth, MIN_PEER_HEALTH]
    norm_num
    decide
  · unfold atlas_get_live_neighbors_claim
    rw [hkeys, List.filter_cons]
    simp only [hbl]
    norm_num

/-- Claim C6 (amended): `live_neighbors(excluding)` returns exactly the
peers, other than the excluded hostport, with at least one counted
request and health at least `MIN_PEER_HEALTH` — with no blacklist
filter (and the random shuffle modelled as the identity, the claim
being about membership). -/
theorem c6_live_neighbors_membership (peer_table : PeerTable)
    (remote_peer_hostport p : String) :
    p ∈ atlas_get_live_neighbors remote_peer_hostport peer_table ↔
      (p ∈ peer_table.map (fun pe => pe.1) ∧ p ≠ remote_peer_hostport ∧
       1 ≤ atlas_peer_get_request_count peer_table p ∧
       MIN_PEER_HEALTH ≤ atlas_peer_get_health peer_table p) := by
  unfold atlas_get_live_neighbors
  rw [List.mem_filter]
  refine and_congr_right (fun _ => ?_)
  split_ifs with h1 h2 h3
  · simp [h1]
  · rw [Nat.lt_one_iff] at h2
    simp [h1, h2]
  · simp [h1, h3.not_le]
  · simpa using ⟨h1, Nat.not_lt.mp h2, not_lt.mp h3⟩


/-- Counterexample to claim C9 as stated: pinging `pk` at `now = 3601`
drops the expired `(0, true)` pair while appending the new one, so the
history has 1 entry both before and after — not one more. -/
theorem c9_history_growth_counterexample :
    (ptLookup (atlas_peer_ping "pk" true 3601 c9Table).2 "pk").map
        (fun e => e.time.length) = some 1 ∧
    (ptLookup c9Table "pk").map (fun e => e.time.length) = some 1 ∧
    ((some 1 : Option Nat) ≠ some (1 + 1)) := by
  decide

/-- A keyed in-place map leaves lookup of the key pointing at the
transformed entry. -/
theorem ptLookup_map_key (l : PeerTable) (p : String) (e : AtlasPeer)
    (f : AtlasPeer → AtlasPeer) (hp : ptLookup l p = some e) :
    ptLookup (l.map (fun pe => if pe.1 = p then (pe.1, f pe.2) else pe)) p =
      some (f e) := by
  induction l with
  | nil => simp [ptLookup] at hp
  | cons pe tl ih =>
    by_cases hq : pe.1 = p
    · have he : pe.2 = e := by
        simp [ptLookup, List.find?, hq] at hp
        exact hp
      simp [ptLookup, List.find?, hq, he]
    · simp only [ptLookup, List.find?, List.map_cons] at hp ⊢
      rw [if_neg hq]
      have hbq : (pe.1 == p) = false := by
        simpa using hq
      rw [hbq] at hp ⊢
      exact ih hp

/-- Claim C9 (amended): after an RPC (here `ping`) to a peer present in
the table, the peer's history becomes its previous entries no older
than `PEER_LIFETIME`, followed by exactly one new `(now, responded)`
pair; in particular it has exactly one more entry than before whenever
no previous entry has expired. -/
theorem c9_history_gains_one_when_fresh (peer_table : PeerTable) (p : String)
    (e : AtlasPeer) (alive : Bool) (now : Nat)
    (hp : ptLookup peer_table p = some e)
    (hfresh : ∀ tr ∈ e.time, ¬ (tr.1 + atlas_peer_lifetime_interval < now)) :
    (ptLookup (atlas_peer_ping p alive now peer_table).2 p).map
        (fun x => x.time.length) = some (e.time.length + 1) := by
  have hs : (atlas_peer_ping p alive now peer_table).2 =
      peer_table.map (fun pe =>
        if pe.1 = p then (pe.1, healthAppend now alive pe.2) else pe) := by
    unfold atlas_peer_ping atlas_peer_update_health
    rw [hp]
    rfl
  rw [hs, ptLookup_map_key peer_table p e (healthAppend now alive) hp]
  have hkeep : e.time.filter
      (fun tr => !decide (tr.1 + atlas_peer_lifetime_interval < now)) = e.time := by
    rw [List.filter_eq_self]
    intro tr htr
    simpa using hfresh tr htr
  simp [healthAppend, hkeep]

/-- Witness for C9 (amended) at a concrete fresh history. -/
theorem c9_history_gains_one_when_fresh_witness :
    (ptLookup (atlas_peer_ping "pk" false 100 c9Table).2 "pk").map
        (fun x => x.time.length) = some 2 :=
  c9_history_gains_one_when_fresh c9Table "pk" ⟨[(0, true)], [], false, false⟩
    false 100 rfl (by decide)

/-- A packed bit list yields one byte per full group of 8 bits. -/
theorem pack8_length (l : List Bool) : (pack8 l).length = l.length / 8 := by
  induction l using pack8.induct with
  | case1 b0 b1 b2 b3 b4 b5 b6 b7 rest ih =>
    rw [pack8]
    simp only [List.length_cons, ih]
    omega
  | case2 l h =>
    rw [pack8]
    · have hlen : l.length < 8 := by
        rcases l with _ | ⟨a0, l0⟩
        · simp
        rcases l0 with _ | ⟨a1, l1⟩
        · simp
        rcases l1 with _ | ⟨a2, l2⟩
        · simp
        rcases l2 with _ | ⟨a3, l3⟩
        · simp
        rcases l3 with _ | ⟨a4, l4⟩
        · simp
        rcases l4 with _ | ⟨a5, l5⟩
        · simp
        rcases l5 with _ | ⟨a6, l6⟩
        · simp
        rcases l6 with _ | ⟨a7, l7⟩
        · simp
        exact absurd rfl (h a0 a1 a2 a3 a4 a5 a6 a7 l7)
      simp only [List.length_nil]
      omega
    · exact h

/-- Counterexample to claim C4 as stated: after inserting a single row
(`inv_index = 1`, so `max(inv_index) = 1`), the inventory-length
operation reports 2, not 1. -/
theorem c4_inv_length_counterexample :
    atlasdb_add_zonefile_info "a" true 100 atlasInit = some c4State ∧
    (c4State.rows.map (fun r => r.inv_index)).max? = some 1 ∧
    atlasdb_zonefile_inv_length c4State = 2 ∧
    atlasdb_zonefile_inv_length c4State ≠ 1 := by
  decide

/-- Claim C4 (amended): for a non-empty dense table (max `inv_index`
equal to the row count `N`), the inventory-length operation used to
size `make_inventory` reports `max(inv_index) + 1`, not `max(inv_index)`;
the rebuilt cached bitmap nevertheless has `⌈N/8⌉` bytes — bit length
`max(inv_index)`, zero-padded to the next byte boundary — because the
`LIMIT N+1` row listing returns only the `N` rows that exist. -/
theorem c4_inv_length_reports_max_plus_one (s : AtlasState)
    (hdense : (s.rows.map (fun r => r.inv_index)).max? = some s.rows.length) :
    atlasdb_zonefile_inv_length s = s.rows.length + 1 ∧
    (atlasdb_cache_zonefile_info s).inv.length = (s.rows.length + 7) / 8 := by
  have h1 : atlasdb_zonefile_inv_length s = s.rows.length + 1 := by
    simp [atlasdb_zonefile_inv_length, hdense]
  refine ⟨h1, ?_⟩
  show (atlas_make_zonefile_inventory 0 (atlasdb_zonefile_inv_length s) s).length = _
  rw [h1]
  simp only [atlas_make_zonefile_inventory, atlasdb_zonefile_inv_list, List.drop_zero]
  rw [List.take_of_length_le (Nat.le_succ _)]
  rw [pack8_length]
  simp only [List.length_map]
  split_ifs with hm
  · simp only [List.length_append, List.length_replicate, List.length_map]
    omega
  · simp only [List.length_map]
    omega

/-- Witness for C4 (amended) on the one-row catalog. -/
theorem c4_inv_length_reports_max_plus_one_witness :
    atlasdb_zonefile_inv_length c4State = 2 ∧
    (atlasdb_cache_zonefile_info c4State).inv.length = 1 :=
  c4_inv_length_reports_max_plus_one c4State rfl

/-- Reading a list of zero bytes with default 0 gives 0. -/
theorem getD_replicate_zero (m j : Nat) : (List.replicate m (0 : Nat)).getD j 0 = 0 := by
  induction m generalizing j with
  | zero => rfl
  | succ n ih =>
    cases j with
    | zero => rfl
    | succ k => exact ih k

/-- Zero-padding does not change any byte read with default 0. -/
theorem getD_append_replicate_zero (xs : List Nat) (m i : Nat) :
    (xs ++ List.replicate m 0).getD i 0 = xs.getD i 0 := by
  rcases Nat.lt_or_ge i xs.length with h | h
  · rw [List.getD_append]
    exact h
  · rw [List.getD_append_right]
    · rw [getD_replicate_zero, List.getD_eq_default]
      exact h
    · exact h

/-- On a non-empty index list, the bit test returns the conjunction of
`invTestBit` over the indexes. -/
theorem test_bits_eq_all (inv_vec : List Nat) (bits : List Nat) (hb : bits ≠ []) :
    atlas_inventory_test_zonefile_bits inv_vec bits =
      some (bits.all (invTestBit inv_vec)) := by
  obtain ⟨mx, hmx⟩ : ∃ mx, bits.max? = some mx := by
    cases h : bits.max? with
    | none => exact absurd (List.max?_eq_none_iff.mp h) hb
    | some mx => exact ⟨mx, rfl⟩
  have hfold : ∀ (p : Nat → Bool) (l : List Nat) (a : Bool),
      l.foldl (fun acc bi => acc && p bi) a = (a && l.all p) := by
    intro p l
    induction l with
    | nil => intro a; simp
    | cons x xs ih =>
      intro a
      simp [ih, Bool.and_assoc]
  simp only [atlas_inventory_test_zonefile_bits, hmx]
  split_ifs with hlen
  · rw [hfold]
    simp only [Bool.true_and]
    congr 1
    refine congrArg (List.all bits) (funext fun bi => ?_)
    rw [getD_append_replicate_zero]
    rfl
  · rw [hfold]
    simp only [Bool.true_and]
    rfl

/-- Folding `all` over a mapped list tests the composite predicate. -/
theorem all_map_fn {α β : Type} (l : List α) (f : α → β) (p : β → Bool) :
    (l.map f).all p = l.all (fun a => p (f a)) := by
  induction l with
  | nil => rfl
  | cons x xs ih => rw [List.map_cons, List.all_cons, List.all_cons, ih]

/-- Conjoining a guard inside `any` is the same as filtering first. -/
theorem any_filter_and (l : List AtlasRow) (q p : AtlasRow → Bool) :
    l.any (fun r => q r && p r) = (l.filter q).any p := by
  induction l with
  | nil => rfl
  | cons r rs ih =>
    cases hq : q r with
    | true =>
      rw [List.any_cons, List.filter_cons]
      rw [if_pos hq, List.any_cons, ih]
      show ((q r && p r) || ((rs.filter q).any p)) = (p r || ((rs.filter q).any p))
      rw [hq, Bool.true_and]
    | false =>
      rw [List.any_cons, List.filter_cons]
      rw [if_neg (by rw [hq]; exact Bool.false_ne_true), ih]
      show ((q r && p r) || ((rs.filter q).any p)) = ((rs.filter q).any p)
      rw [hq, Bool.false_and, Bool.false_or]

/-- Counterexample to claim C5 as stated: in the reachable state built
by `c5Chain` (rows `(1, a, present)` and `(2, a, absent)`, both cached
bits cleared by the second insert), `set_present("a", true)` returns
`false` although row 1 was already present — the source reads the prior
value from the cached bitmap with an all-bits test, not from the table
with an any-row test. -/
theorem c5_set_present_counterexample :
    c5Chain.map (fun s =>
      ((atlasdb_set_zonefile_present "a" true s).map (fun x => x.1),
       s.rows.any (fun r => r.zonefile_hash == "a" && r.present))) =
      some (some false, true) := by
  decide

/-- Claim C5 (amended): for a hash with at least one row,
`set_present(hash, b)` updates every row with that hash (and flips the
corresponding bitmap bits), and returns true iff *all* of the hash's
bits were set in the cached bitmap before the update — which equals the
claimed "any row already present" exactly when the cached bitmap agrees
with the table on the hash's bits and the hash's rows share one
presence value, as stated here. -/
theorem c5_set_present_returns_cached_bits (s : AtlasState) (zonefile_hash : String)
    (present : Bool)
    (hrow : atlasdb_get_zonefile_bits s.rows zonefile_hash ≠ [])
    (hcons : ∀ r ∈ s.rows, r.zonefile_hash = zonefile_hash →
      invTestBit s.inv (r.inv_index - 1) = r.present)
    (hunif : ∀ r1 ∈ s.rows, ∀ r2 ∈ s.rows, r1.zonefile_hash = zonefile_hash →
      r2.zonefile_hash = zonefile_hash → r1.present = r2.present) :
    (atlasdb_set_zonefile_present zonefile_hash present s).map (fun x => x.1) =
      some (s.rows.any (fun r => r.zonefile_hash == zonefile_hash && r.present)) ∧
    (atlasdb_set_zonefile_present zonefile_hash present s).map (fun x => x.2.rows) =
      some (s.rows.map (fun r =>
        if r.zonefile_hash == zonefile_hash then { r with present := present } else r)) := by
  obtain ⟨mx, hmx⟩ : ∃ mx, (atlasdb_get_zonefile_bits s.rows zonefile_hash).max? = some mx := by
    cases h : (atlasdb_get_zonefile_bits s.rows zonefile_hash).max? with
    | none => exact absurd (List.max?_eq_none_iff.mp h) hrow
    | some mx => exact ⟨mx, rfl⟩
  have htest := test_bits_eq_all s.inv (atlasdb_get_zonefile_bits s.rows zonefile_hash) hrow
  have hflip : ∃ v, atlas_inventory_flip_zonefile_bits s.inv
      (atlasdb_get_zonefile_bits s.rows zonefile_hash) present = some v := by
    simp [atlas_inventory_flip_zonefile_bits, hmx]
  obtain ⟨v, hflip⟩ := hflip
  have hset : atlasdb_set_zonefile_present zonefile_hash present s =
      some ((atlasdb_get_zonefile_bits s.rows zonefile_hash).all (invTestBit s.inv),
        ⟨s.rows.map (fun r =>
          if r.zonefile_hash == zonefile_hash then { r with present := present } else r),
          s.seq, v⟩) := by
    simp only [atlasdb_set_zonefile_present, atlasdb_get_zonefile_bits_map_present,
      htest, hflip]
  have hkey : (atlasdb_get_zonefile_bits s.rows zonefile_hash).all (invTestBit s.inv) =
      s.rows.any (fun r => r.zonefile_hash == zonefile_hash && r.present) := by
    unfold atlasdb_get_zonefile_bits
    rw [all_map_fn]
    rw [any_filter_and s.rows (fun r => r.zonefile_hash == zonefile_hash)
      (fun r => r.present)]
    have hall2 : (s.rows.filter (fun r => r.zonefile_hash == zonefile_hash)).all
        (fun r => invTestBit s.inv (r.inv_index - 1)) =
        (s.rows.filter (fun r => r.zonefile_hash == zonefile_hash)).all
          (fun r => r.present) := by
      have hmem : ∀ r ∈ s.rows.filter (fun r => r.zonefile_hash == zonefile_hash),
          invTestBit s.inv (r.inv_index - 1) = r.present := by
        intro r hr
        rw [List.mem_filter] at hr
        exact hcons r hr.1 (by simpa using hr.2)
      revert hmem
      generalize s.rows.filter (fun r => r.zonefile_hash == zonefile_hash) = F
      intro hmem
      induction F with
      | nil => rfl
      | cons x xs ih =>
        rw [List.all_cons, List.all_cons, hmem x (List.mem_cons_self x xs),
          ih (fun r hr => hmem r (List.mem_cons_of_mem x hr))]
    rw [hall2]
    have hFne : s.rows.filter (fun r => r.zonefile_hash == zonefile_hash) ≠ [] := by
      intro h0
      apply hrow
      unfold atlasdb_get_zonefile_bits
      rw [h0]
      rfl
    have hFunif : ∀ r1 ∈ s.rows.filter (fun r => r.zonefile_hash == zonefile_hash),
        ∀ r2 ∈ s.rows.filter (fun r => r.zonefile_hash == zonefile_hash),
        r1.present = r2.present := by
      intro r1 h1 r2 h2
      rw [List.mem_filter] at h1 h2
      exact hunif r1 h1.1 r2 h2.1 (by simpa using h1.2) (by simpa using h2.2)
    revert hFne hFunif
    generalize s.rows.filter (fun r => r.zonefile_hash == zonefile_hash) = F
    intro hFne hFunif
    cases hany : F.any (fun r => r.present) with
    | false =>
      obtain ⟨x, hx⟩ : ∃ x, x ∈ F := by
        cases F with
        | nil => exact absurd rfl hFne
        | cons a as => exact ⟨a, List.mem_cons_self a as⟩
      have hxf : x.present = false := by
        by_contra hxx
        rw [Bool.not_eq_false] at hxx
        have hc : F.any (fun r => r.present) = true := List.any_eq_true.mpr ⟨x, hx, hxx⟩
        rw [hany] at hc
        exact Bool.false_ne_true hc
      cases hall3 : F.all (fun r => r.present) with
      | false => rfl
      | true =>
        have hp := List.all_eq_true.mp hall3 x hx
        rw [hxf] at hp
        exact absurd hp Bool.false_ne_true
    | true =>
      obtain ⟨x, hx, hxp⟩ := List.any_eq_true.mp hany
      exact List.all_eq_true.mpr (fun r hr => by rw [hFunif r hr x hx]; exact hxp)
  rw [hset]
  constructor
  · simp only [Option.map_some']
    rw [hkey]
  · simp only [Option.map_some']

/-- Witness for C5 (amended) on the consistent one-row catalog. -/
theorem c5_set_present_returns_cached_bits_witness :
    (atlasdb_set_zonefile_present "a" false c4State).map (fun x => x.1) = some true ∧
    (atlasdb_set_zonefile_present "a" false c4State).map (fun x => x.2.rows) =
      some [⟨1, "a", false, false, 100⟩] := by
  have h := c5_set_present_returns_cached_bits c4State "a" false (by decide)
    (by decide) (by decide)
  refine ⟨?_, ?_⟩
  · rw [h.1]
    decide
  · rw [h.2]
    decide
